import Mathlib

/-!
Verification of the canvas_table virtualized grid renderer
(src/canvas-wasm/src/lib.rs).

The Rust source is shallowly embedded as follows:

* `f64` pixel quantities are modelled as exact rationals `ℚ`; the Rust
  `expr as u32` saturating cast of a nonnegative float is modelled by
  `f64_to_u32` (floor, clamp to `[0, 2^32-1]`).
* `u32` counts and indices are modelled as `ℕ` (with `-` the saturating
  `Nat` subtraction, matching `saturating_sub`, and explicit `min`s where
  the source clamps); `u32` additions that can overflow carry an explicit
  `% 2^32`, the wrapping semantics of the release-mode wasm build.
* The `HashMap<u32, Vec<Row>>` segment cache is modelled as an
  association list `List (ℕ × List Row)`; the list order stands for the
  map's iteration order (which the source's eviction pass depends on).
* Drawing onto a `CanvasRenderingContext2d` is modelled as a trace of
  `DrawCmd` values, in the order the source issues the calls.
-/

/-- Rust struct `TableConfig` (lib.rs lines 14-22). -/
structure TableConfig where
  columns : ℕ
  rows : ℕ
  cell_width : ℚ
  cell_height : ℚ
  header_height : ℚ
  visible_width : ℚ
  visible_height : ℚ
  deriving Repr, DecidableEq

/-- Rust struct `Row` (lib.rs lines 53-55): a map from column key to cell
value, modelled as an association list (the JS row object built from it). -/
structure Row where
  cells : List (String × String)
  deriving Repr, DecidableEq

/-- Rust struct `TableRenderer` (lib.rs lines 249-251). -/
structure TableRenderer where
  config : TableConfig
  deriving Repr, DecidableEq

/-- Rust struct `TableManager` (lib.rs lines 59-63). -/
structure TableManager where
  renderer : TableRenderer
  data_cache : List (ℕ × List Row)
  segment_size : ℕ
  deriving Repr, DecidableEq

/-- One drawing call on the 2d context, recorded in source order. -/
inductive DrawCmd where
  | clearRect (x y w h : ℚ)
  | fillRect (x y w h : ℚ)
  | strokeRect (x y w h : ℚ)
  | fillText (text : String) (x y : ℚ)
  | setFillStyle (style : String)
  | setStrokeStyle (style : String)
  | setFont (font : String)
  | setTextAlign (a : String)
  | setTextBaseline (a : String)
  | beginPath
  | moveTo (x y : ℚ)
  | lineTo (x y : ℚ)
  | stroke
  deriving Repr, DecidableEq

/-- Rust `expr as u32` applied to an `f64`: truncate toward zero and
saturate into `[0, u32::MAX]`.  All casts in the source are applied to
values that were already floored or ceiled, so truncation is `Int.floor`. -/
def f64_to_u32 (q : ℚ) : ℕ := min (Int.toNat ⌊q⌋) (2 ^ 32 - 1)

/-- Rust `(x.ceil()) as u32` composed, as used for `visible_rows` (lib.rs 113-115). -/
def f64_ceil_to_u32 (q : ℚ) : ℕ := min (Int.toNat ⌈q⌉) (2 ^ 32 - 1)

/-- Column range computed by `TableManager::render_header` (lib.rs 93-97). -/
def header_col_range (cfg : TableConfig) (scroll_left : ℚ) : ℕ × ℕ :=
  let start_col := f64_to_u32 (scroll_left / cfg.cell_width)
  let end_col := f64_to_u32 ((scroll_left + cfg.visible_width) / cfg.cell_width)
  (start_col, min end_col (cfg.columns - 1))

/-- Column range recomputed inside `TableRenderer::render_content`
(lib.rs 360-363). -/
def content_col_range (cfg : TableConfig) (scroll_left : ℚ) : ℕ × ℕ :=
  let start_col := f64_to_u32 (scroll_left / cfg.cell_width)
  let end_col := f64_to_u32 ((scroll_left + cfg.visible_width) / cfg.cell_width)
  (start_col, min end_col (cfg.columns - 1))

/-- Row range computed by `TableManager::render_content` (lib.rs 112-116).
The two `u32` additions (`... .ceil() as u32 + 2` and `start_row +
visible_rows`) wrap modulo `2^32`, the release-mode overflow semantics of the
wasm build. -/
def content_row_range (cfg : TableConfig) (scroll_top : ℚ) : ℕ × ℕ :=
  let start_row := f64_to_u32 (scroll_top / cfg.cell_height)
  let visible_rows := (f64_ceil_to_u32 (cfg.visible_height / cfg.cell_height) + 2) % 2 ^ 32
  (start_row, min ((start_row + visible_rows) % 2 ^ 32) (cfg.rows - 1))

/-- Keys of the segment cache, in iteration order. -/
def cache_keys (cache : List (ℕ × List Row)) : List ℕ := cache.map Prod.fst

/-- The test `segment_idx < current.saturating_sub(2) || segment_idx > current + 2`
from `TableManager::clean_cache` (lib.rs 193-194).  The left side uses
`saturating_sub`; the right side is a plain `u32` addition, which wraps
modulo `2^32` (release-mode overflow semantics of the wasm build), so for
`current ≥ 2^32 - 2` the bound wraps to a small value. -/
def far_from (current_segment_index segment_idx : ℕ) : Bool :=
  decide (segment_idx < current_segment_index - 2)
    || decide ((current_segment_index + 2) % 2 ^ 32 < segment_idx)

/-- Rust `TableManager::clean_cache` (lib.rs 189-206): collect the cached
indices farther than 2 from the current one and, when more than 5 were
collected, remove all but the last 5 of them. -/
def clean_cache (cache : List (ℕ × List Row)) (current_segment_index : ℕ) :
    List (ℕ × List Row) :=
  let segments_to_remove :=
    (cache_keys cache).filter (far_from current_segment_index)
  if 5 < segments_to_remove.length then
    let removed := segments_to_remove.take (segments_to_remove.length - 5)
    cache.filter (fun e => !(removed.contains e.1))
  else cache

/-- One synthetic row, from the generation loop in
`TableManager::get_or_load_segment` (lib.rs 166-175). -/
def generate_row (cfg : TableConfig) (i : ℕ) : Row :=
  ⟨(List.range cfg.columns).map (fun j =>
    ("col_" ++ toString j, "数据 " ++ toString (i + 1) ++ "-" ++ toString (j + 1)))⟩

/-- The segment generated for `segment_index` in
`TableManager::get_or_load_segment` (lib.rs 162-175). -/
def generate_segment (cfg : TableConfig) (segment_size segment_index : ℕ) :
    List Row :=
  let start := segment_index * segment_size
  let stop := min (start + segment_size) cfg.rows
  (List.range' start (stop - start)).map (generate_row cfg)

/-- Rust `TableManager::get_or_load_segment` (lib.rs 160-186).  On a miss the
segment is generated, the cache is cleaned when it already holds more than 10
entries, and the new segment is inserted. -/
def TableManager.get_or_load_segment (m : TableManager) (segment_index : ℕ) :
    TableManager × List Row :=
  if (cache_keys m.data_cache).contains segment_index then
    (m, (m.data_cache.lookup segment_index).getD [])
  else
    let segment_data := generate_segment m.renderer.config m.segment_size segment_index
    let cache1 :=
      if 10 < m.data_cache.length then clean_cache m.data_cache segment_index
      else m.data_cache
    ({ m with data_cache := cache1 ++ [(segment_index, segment_data)] }, segment_data)

/-- Rust `TableRenderer::render_header` (lib.rs 261-320). -/
def TableRenderer.render_header (r : TableRenderer) (start_col end_col : ℕ)
    (scroll_left : ℚ) : List DrawCmd :=
  let cfg := r.config
  [DrawCmd.clearRect 0 0 cfg.visible_width cfg.header_height,
   DrawCmd.setFillStyle "#f2f2f2",
   DrawCmd.fillRect 0 0 cfg.visible_width cfg.header_height,
   DrawCmd.setFillStyle "#333",
   DrawCmd.setFont "14px Arial",
   DrawCmd.setTextAlign "center",
   DrawCmd.setTextBaseline "middle"]
  ++ (List.range' start_col (end_col + 1 - start_col)).map (fun (col : ℕ) =>
       DrawCmd.fillText ("列 " ++ toString (col + 1))
         ((col : ℚ) * cfg.cell_width - scroll_left + cfg.cell_width / 2)
         (cfg.header_height / 2))
  ++ [DrawCmd.setStrokeStyle "#ddd", DrawCmd.beginPath]
  ++ (List.range' start_col (end_col + 1 + 1 - start_col)).flatMap (fun (col : ℕ) =>
       [DrawCmd.moveTo ((col : ℚ) * cfg.cell_width - scroll_left) 0,
        DrawCmd.lineTo ((col : ℚ) * cfg.cell_width - scroll_left) cfg.header_height])
  ++ [DrawCmd.moveTo 0 cfg.header_height,
      DrawCmd.lineTo cfg.visible_width cfg.header_height,
      DrawCmd.stroke]

/-- Rust `TableRenderer::get_total_width` (lib.rs 324-326). -/
def TableRenderer.get_total_width (r : TableRenderer) : ℚ :=
  (r.config.columns : ℚ) * r.config.cell_width

/-- Rust `TableRenderer::get_total_height` (lib.rs 330-339): chunked sum over
blocks of 10,000,000 rows. -/
def TableRenderer.get_total_height (r : TableRenderer) : ℚ :=
  let rows_per_segment : ℕ := 10000000
  let full_segments : ℕ := r.config.rows / rows_per_segment
  let remaining_rows : ℕ := r.config.rows % rows_per_segment
  (full_segments : ℚ) * (rows_per_segment : ℚ) * r.config.cell_height
    + (remaining_rows : ℚ) * r.config.cell_height
    + r.config.header_height

/-- The row loop pattern shared by the four passes of
`TableRenderer::render_content_cells`: iterate `row_idx` upward, stopping
(`break`) as soon as `row_idx` reaches the length of the supplied data. -/
def rowLoop (dataLen : ℕ) (body : ℕ → List DrawCmd) : ℕ → ℕ → List DrawCmd
  | _, 0 => []
  | ri, n + 1 =>
    if dataLen ≤ ri then [] else body ri ++ rowLoop dataLen body (ri + 1) n

/-- Body of the two background passes (lib.rs 400-418 even, 422-440 odd):
skip rows of the other parity, then skip rows outside the viewport. -/
def bg_row_body (cfg : TableConfig) (parity : ℕ) (adjusted_scroll_top : ℚ)
    (ri : ℕ) : List DrawCmd :=
  if ri % 2 ≠ parity then []
  else
    let y := (ri : ℚ) * cfg.cell_height - adjusted_scroll_top
    if y + cfg.cell_height < 0 ∨ y > cfg.visible_height then []
    else [DrawCmd.fillRect 0 y cfg.visible_width cfg.cell_height]

/-- Body of the text pass (lib.rs 448-491): for each visible cell look the
value up under key `col_{col}`; a missing value renders as the empty string. -/
def text_row_body (cfg : TableConfig) (data : List Row) (start_col end_col : ℕ)
    (scroll_left adjusted_scroll_top : ℚ) (ri : ℕ) : List DrawCmd :=
  let y := (ri : ℚ) * cfg.cell_height - adjusted_scroll_top
  if y + cfg.cell_height < 0 ∨ y > cfg.visible_height then []
  else
    (List.range' start_col (end_col + 1 - start_col)).flatMap (fun (col : ℕ) =>
      let x := (col : ℚ) * cfg.cell_width - scroll_left
      if x + cfg.cell_width < 0 ∨ x > cfg.visible_width then []
      else
        let text := ((data.getD ri ⟨[]⟩).cells.lookup ("col_" ++ toString col)).getD ""
        [DrawCmd.fillText text (x + cfg.cell_width / 2) (y + cfg.cell_height / 2)])

/-- Body of the border pass (lib.rs 499-524). -/
def border_row_body (cfg : TableConfig) (start_col end_col : ℕ)
    (scroll_left adjusted_scroll_top : ℚ) (ri : ℕ) : List DrawCmd :=
  let y := (ri : ℚ) * cfg.cell_height - adjusted_scroll_top
  if y + cfg.cell_height < 0 ∨ y > cfg.visible_height then []
  else
    (List.range' start_col (end_col + 1 - start_col)).flatMap (fun (col : ℕ) =>
      let x := (col : ℚ) * cfg.cell_width - scroll_left
      if x + cfg.cell_width < 0 ∨ x > cfg.visible_width then []
      else [DrawCmd.strokeRect x y cfg.cell_width cfg.cell_height])

/-- Rust `TableRenderer::render_content_cells` (lib.rs 384-525): even
backgrounds, odd backgrounds, text, borders. -/
def TableRenderer.render_content_cells (r : TableRenderer) (data : List Row)
    (data_start_row data_end_row start_col end_col : ℕ)
    (scroll_left adjusted_scroll_top : ℚ) : List DrawCmd :=
  let cfg := r.config
  let n := data_end_row + 1 - data_start_row
  [DrawCmd.setFillStyle "#ffffff"]
    ++ rowLoop data.length (bg_row_body cfg 0 adjusted_scroll_top) data_start_row n
    ++ [DrawCmd.setFillStyle "#f9f9f9"]
    ++ rowLoop data.length (bg_row_body cfg 1 adjusted_scroll_top) data_start_row n
    ++ [DrawCmd.setFillStyle "#333", DrawCmd.setFont "14px Arial",
        DrawCmd.setTextAlign "center", DrawCmd.setTextBaseline "middle"]
    ++ rowLoop data.length
        (text_row_body cfg data start_col end_col scroll_left adjusted_scroll_top)
        data_start_row n
    ++ [DrawCmd.setStrokeStyle "#ddd"]
    ++ rowLoop data.length
        (border_row_body cfg start_col end_col scroll_left adjusted_scroll_top)
        data_start_row n

/-- Rust `TableRenderer::render_content` (lib.rs 343-381). -/
def TableRenderer.render_content (r : TableRenderer) (data : List Row)
    (scroll_left scroll_top visible_start_row : ℚ) : List DrawCmd :=
  let cfg := r.config
  let p := content_col_range cfg scroll_left
  let visible_rows : ℚ := ((⌈cfg.visible_height / cfg.cell_height⌉ : ℤ) : ℚ) + 1
  let start_row : ℚ := visible_start_row
  let end_row : ℚ := min (start_row + visible_rows) ((cfg.rows : ℚ) - 1)
  DrawCmd.clearRect 0 0 cfg.visible_width cfg.visible_height
    :: r.render_content_cells data 0 (f64_to_u32 (end_row - start_row)) p.1 p.2
        scroll_left (scroll_top - start_row * cfg.cell_height)

/-- Rust `TableManager::new` (lib.rs 68-75). -/
def TableManager.new (config : TableConfig) (segment_size : ℕ) : TableManager :=
  { renderer := { config := config }, data_cache := [], segment_size := segment_size }

/-- Rust `TableManager::render_header` (lib.rs 91-101).  The method takes
`&self`; the returned manager is the unchanged receiver. -/
def TableManager.render_header (m : TableManager) (scroll_left : ℚ) :
    TableManager × List DrawCmd :=
  let p := header_col_range m.renderer.config scroll_left
  (m, m.renderer.render_header p.1 p.2 scroll_left)

/-- Rust `TableManager::get_total_width` (lib.rs 79-81), with the `&self`
receiver returned unchanged. -/
def TableManager.get_total_width (m : TableManager) : TableManager × ℚ :=
  (m, m.renderer.get_total_width)

/-- Rust `TableManager::get_total_height` (lib.rs 85-87), with the `&self`
receiver returned unchanged. -/
def TableManager.get_total_height (m : TableManager) : TableManager × ℚ :=
  (m, m.renderer.get_total_height)

/-- One iteration of the visible-data loop of `TableManager::render_content`
(lib.rs 124-133): resolve the row's segment, load it, and push the row when
its in-segment index is in bounds. -/
def content_step (acc : TableManager × List Row) (row_idx : ℕ) :
    TableManager × List Row :=
  let m := acc.1
  let segment_idx := row_idx / m.segment_size
  let r := m.get_or_load_segment segment_idx
  let index_in_segment := row_idx % m.segment_size
  (r.1,
    if index_in_segment < r.2.length then acc.2 ++ [r.2.getD index_in_segment ⟨[]⟩]
    else acc.2)

/-- Rust `TableManager::render_content` (lib.rs 105-157): compute the row
range, assemble the visible slice (loading segments as needed), and delegate
to the renderer. -/
def TableManager.render_content (m : TableManager) (scroll_left scroll_top : ℚ) :
    TableManager × List Row × List DrawCmd :=
  let p := content_row_range m.renderer.config scroll_top
  let res := (List.range' p.1 (p.2 + 1 - p.1)).foldl content_step (m, [])
  (res.1, res.2,
    res.1.renderer.render_content res.2 scroll_left scroll_top (p.1 : ℚ))

/-- The per-frame cache-touching entry points of the manager. -/
inductive TableOp where
  | renderContent (scroll_left scroll_top : ℚ)
  | getOrLoad (segment_index : ℕ)

/-- Apply one entry point, keeping only the manager state. -/
def applyOp (m : TableManager) : TableOp → TableManager
  | .renderContent sl st => (m.render_content sl st).1
  | .getOrLoad i => (m.get_or_load_segment i).1

/-- Run a sequence of entry points from a given manager state. -/
def runOps (m : TableManager) (ops : List TableOp) : TableManager :=
  ops.foldl applyOp m

/-! ## Concrete instances used by counterexamples and witnesses -/

/-- A minimal valid configuration: one column, one row, every dimension 1. -/
def cfgC1 : TableConfig := ⟨1, 1, 1, 1, 1, 1, 1⟩

/-- The scenario configuration of spec section 8: columns=5, rows=100,
cellWidth=80, cellHeight=24, headerHeight=30, viewport 400x240. -/
def cfgMain : TableConfig := ⟨5, 100, 80, 24, 30, 400, 240⟩

/-- The scenario manager: `cfgMain` with segmentSize=20 and empty cache. -/
def mMain : TableManager := TableManager.new cfgMain 20

/-! ## C2: total height is the chunked sum -/

/-- The total-height formula as the spec words it (spec sections 4.1 and 8):
split `rows` into chunks of 10,000,000 and sum
`fullChunks * 10,000,000 * cellHeight + remainder * cellHeight + headerHeight`. -/
def chunked_total_height_spec (cfg : TableConfig) : ℚ :=
  let fullChunks : ℕ := cfg.rows / 10000000
  let remainder : ℕ := cfg.rows % 10000000
  (fullChunks : ℚ) * ((10000000 : ℕ) : ℚ) * cfg.cell_height
    + (remainder : ℚ) * cfg.cell_height + cfg.header_height

/-- C2: for every configuration, `get_total_height` returns exactly the
chunked sum `fullChunks * 10,000,000 * cellHeight + remainder * cellHeight +
headerHeight`, with `fullChunks = rows / 10,000,000` and
`remainder = rows % 10,000,000` (integer division and modulus), in exactly
that association. -/
theorem get_total_height_eq_chunked_spec (r : TableRenderer) :
    r.get_total_height = chunked_total_height_spec r.config := rfl

/-! ## C8: header and content column ranges agree -/

/-- C8: the `(startCol, endCol)` pair computed by the header entry point
(lib.rs 93-97) and the pair independently recomputed inside the content pass
(lib.rs 360-363) are equal, and both equal
`(floor(scrollLeft/cellWidth), min(floor((scrollLeft+viewportWidth)/cellWidth), columns-1))`. -/
theorem header_content_col_range_agree (cfg : TableConfig) (scroll_left : ℚ) :
    header_col_range cfg scroll_left = content_col_range cfg scroll_left ∧
    header_col_range cfg scroll_left =
      (f64_to_u32 (scroll_left / cfg.cell_width),
        min (f64_to_u32 ((scroll_left + cfg.visible_width) / cfg.cell_width))
          (cfg.columns - 1)) :=
  ⟨rfl, rfl⟩

/-! ## C10: renderHeader / getTotalWidth / getTotalHeight do not mutate -/

/-- C10: `render_header`, `get_total_width` and `get_total_height` leave the
manager — in particular the segment cache — unchanged.  In the source all
three take `&self`; in the embedding each returns its receiver, and that
returned state equals the input state exactly. -/
theorem read_only_entry_points_leave_state_unchanged (m : TableManager)
    (scroll_left : ℚ) :
    (m.render_header scroll_left).1 = m ∧
    m.get_total_width.1 = m ∧
    m.get_total_height.1 = m :=
  ⟨rfl, rfl, rfl⟩

/-! ## C1: ordering of visible ranges -/

/-- C1 counterexample: with `cfgC1` (columns = rows = 1, all dimensions 1)
and scrollLeft = scrollTop = 2 (both ≥ 0), the header column range is
(2, 0) and the content row range is (2, 0): startCol ≤ endCol and
startRow ≤ endRow both fail, refuting the claim as stated for arbitrary
nonnegative scroll offsets. -/
theorem range_order_fails_beyond_grid :
    ¬ ((header_col_range cfgC1 2).1 ≤ (header_col_range cfgC1 2).2 ∧
       (content_row_range cfgC1 2).1 ≤ (content_row_range cfgC1 2).2) := by
  have h1 : header_col_range cfgC1 2 = (2, 0) := by
    norm_num [header_col_range, f64_to_u32, cfgC1] <;> decide
  have h2 : content_row_range cfgC1 2 = (2, 0) := by
    norm_num [content_row_range, f64_to_u32, f64_ceil_to_u32, cfgC1] <;> decide
  simp [h1, h2]

/-- C1 amended: for a valid configuration (positive cell sizes, nonnegative
viewport, 1 ≤ columns, rows < 2^32) whose row count leaves room for the
visible-row slack without `u32` overflow
(rows + ceil(viewportHeight/cellHeight) + 2 ≤ 2^32, so the `u32` additions
of lib.rs 112-116 do not wrap), and scroll offsets inside the grid
(0 ≤ scrollLeft < columns*cellWidth, 0 ≤ scrollTop < rows*cellHeight), the
column range of `render_header` satisfies startCol ≤ endCol ≤ columns-1 and
the row range of `render_content` satisfies startRow ≤ endRow ≤ rows-1. -/
theorem ranges_ordered_within_grid (cfg : TableConfig)
    (scroll_left scroll_top : ℚ)
    (hcols : 1 ≤ cfg.columns) (hrows : 1 ≤ cfg.rows)
    (hcols32 : cfg.columns < 2 ^ 32) (hrows32 : cfg.rows < 2 ^ 32)
    (hcw : 0 < cfg.cell_width) (hch : 0 < cfg.cell_height)
    (hvw : 0 ≤ cfg.visible_width)
    (hsl0 : 0 ≤ scroll_left) (hst0 : 0 ≤ scroll_top)
    (hsl : scroll_left < (cfg.columns : ℚ) * cfg.cell_width)
    (hst : scroll_top < (cfg.rows : ℚ) * cfg.cell_height)
    (hnowrap : cfg.rows
        + f64_ceil_to_u32 (cfg.visible_height / cfg.cell_height) + 2 ≤ 2 ^ 32) :
    (header_col_range cfg scroll_left).1 ≤ (header_col_range cfg scroll_left).2 ∧
    (header_col_range cfg scroll_left).2 ≤ cfg.columns - 1 ∧
    (content_row_range cfg scroll_top).1 ≤ (content_row_range cfg scroll_top).2 ∧
    (content_row_range cfg scroll_top).2 ≤ cfg.rows - 1 := by
  have hcol_lt : ⌊scroll_left / cfg.cell_width⌋ < (cfg.columns : ℤ) :=
    Int.floor_lt.mpr (by push_cast; rw [div_lt_iff hcw]; exact hsl)
  have hrow_lt : ⌊scroll_top / cfg.cell_height⌋ < (cfg.rows : ℤ) :=
    Int.floor_lt.mpr (by push_cast; rw [div_lt_iff hch]; exact hst)
  have hmono : ⌊scroll_left / cfg.cell_width⌋
      ≤ ⌊(scroll_left + cfg.visible_width) / cfg.cell_width⌋ :=
    Int.floor_le_floor (by gcongr; linarith)
  simp only [f64_ceil_to_u32] at hnowrap
  simp only [header_col_range, content_row_range, f64_to_u32, f64_ceil_to_u32]
  omega

/-- C1 amended, witness: the spec section 8 scenario configuration at scroll
offset (0, 0) satisfies every hypothesis and both orderings. -/
theorem ranges_ordered_within_grid_witness :
    (header_col_range cfgMain 0).1 ≤ (header_col_range cfgMain 0).2 ∧
    (header_col_range cfgMain 0).2 ≤ cfgMain.columns - 1 ∧
    (content_row_range cfgMain 0).1 ≤ (content_row_range cfgMain 0).2 ∧
    (content_row_range cfgMain 0).2 ≤ cfgMain.rows - 1 :=
  ranges_ordered_within_grid cfgMain 0 0 (by decide) (by decide) (by decide)
    (by decide) (by decide) (by decide) (by decide) (by decide) (by decide)
    (by norm_num [cfgMain]) (by norm_num [cfgMain])
    (by norm_num [cfgMain, f64_ceil_to_u32] <;> decide)

/-! ## Cache lemmas -/

theorem cache_keys_append (a b : List (ℕ × List Row)) :
    cache_keys (a ++ b) = cache_keys a ++ cache_keys b :=
  List.map_append _ _ _

theorem cache_keys_filter (cache : List (ℕ × List Row)) (q : ℕ → Bool) :
    cache_keys (cache.filter (fun e => q e.1)) = (cache_keys cache).filter q := by
  unfold cache_keys
  rw [List.filter_map]
  rfl

theorem mem_of_contains {l : List ℕ} {k : ℕ} (h : l.contains k = true) : k ∈ l := by
  simpa using h

theorem contains_false_of_not_mem {l : List ℕ} {k : ℕ} (h : k ∉ l) :
    l.contains k = false := by
  simpa using h

/-- As long as `current + 2` does not wrap, `far_from` is false exactly on
the indices within distance 2 of the current one (`saturating_sub` makes the
low side saturate at 0). -/
theorem far_from_eq_false_iff {current k : ℕ} (h32 : current + 2 < 2 ^ 32) :
    far_from current k = false ↔ Nat.dist k current ≤ 2 := by
  unfold far_from Nat.dist
  simp only [Bool.or_eq_false_iff, decide_eq_false_iff_not]
  omega

theorem far_from_eq_true_dist {current k : ℕ} (h32 : current + 2 < 2 ^ 32)
    (h : far_from current k = true) : 2 < Nat.dist k current := by
  unfold far_from at h
  simp only [Bool.or_eq_true, decide_eq_true_eq] at h
  unfold Nat.dist
  omega

/-- An entry whose key avoids the removal list survives the removal filter. -/
theorem mem_filter_not_contains {cache : List (ℕ × List Row)} {rem : List ℕ}
    {e : ℕ × List Row} (he : e ∈ cache) (hnot : e.1 ∉ rem) :
    e.1 ∈ cache_keys (cache.filter (fun x => !rem.contains x.1)) :=
  List.mem_map.mpr
    ⟨e, List.mem_filter.mpr ⟨he, by rw [contains_false_of_not_mem hnot]; rfl⟩, rfl⟩

/-- Keys within distance 2 of the current index survive `clean_cache`. -/
theorem mem_clean_cache_of_near {cache : List (ℕ × List Row)} {current k : ℕ}
    (hk : k ∈ cache_keys cache) (hnear : far_from current k = false) :
    k ∈ cache_keys (clean_cache cache current) := by
  unfold clean_cache
  dsimp only
  split
  · obtain ⟨e, he, rfl⟩ := List.mem_map.mp hk
    refine mem_filter_not_contains he fun hmem => ?_
    have hfar := List.of_mem_filter (List.mem_of_mem_take hmem)
    rw [hnear] at hfar
    cases hfar
  · exact hk

/-! ## C3: eviction only removes far segments -/

/-- The configuration of the C3 counterexample: one column and the maximal
`u32` row count, so that segment indices up to `2^32 - 2` are reachable with
segmentSize 1. -/
def cfgMax : TableConfig := ⟨1, 2 ^ 32 - 1, 1, 1, 1, 1, 1⟩

/-- A manager with eleven cached segments whose first entry is the
distance-1 neighbor `2^32 - 3` of the soon-requested index `2^32 - 2`. -/
def mC3 : TableManager :=
  { renderer := ⟨cfgMax⟩,
    data_cache := (2 ^ 32 - 3, ([] : List Row)) ::
      (List.range' 100 10).map (fun k => (k, ([] : List Row))),
    segment_size := 1 }

/-- C3 counterexample: at the requested index `s = 2^32 - 2` the source's
`u32` bound `s + 2` wraps to 0, so the eviction pass triggered by
`get_or_load_segment s` classifies the cached distance-1 neighbor `2^32 - 3`
as far and evicts it — refuting the claim that indices within distance 2 of
the most recently requested segment are never evicted. -/
theorem neighbor_evicted_at_u32_wrap :
    Nat.dist (2 ^ 32 - 3) (2 ^ 32 - 2) ≤ 2 ∧
    (2 ^ 32 - 3) ∈ cache_keys mC3.data_cache ∧
    (2 ^ 32 - 3) ∉ cache_keys (mC3.get_or_load_segment (2 ^ 32 - 2)).1.data_cache := by
  decide

/-- C3 amended: whenever the requested index `s` satisfies `s + 2 < 2^32`
(no wrap in the source's `u32` distance bound): (a) every segment index
removed by an eviction pass is at distance greater than 2 from the index
that triggered it; (b) over any `get_or_load` call, every cached index
within distance 2 of the requested index survives; (c) the requested index
itself is cached after the call — (c) needs no wrap hypothesis. -/
theorem eviction_only_removes_far_segments :
    (∀ (cache : List (ℕ × List Row)) (current k : ℕ), current + 2 < 2 ^ 32 →
        k ∈ cache_keys cache → k ∉ cache_keys (clean_cache cache current) →
        2 < Nat.dist k current) ∧
    (∀ (m : TableManager) (s k : ℕ), s + 2 < 2 ^ 32 →
        k ∈ cache_keys m.data_cache → Nat.dist k s ≤ 2 →
        k ∈ cache_keys (m.get_or_load_segment s).1.data_cache) ∧
    (∀ (m : TableManager) (s : ℕ),
        s ∈ cache_keys (m.get_or_load_segment s).1.data_cache) := by
  refine ⟨?_, ?_, ?_⟩
  · intro cache current k h32 hk hnot
    rcases hfar : far_from current k with hf | ht
    · exact absurd (mem_clean_cache_of_near hk hfar) hnot
    · exact far_from_eq_true_dist h32 hfar
  · intro m s k h32 hk hdist
    unfold TableManager.get_or_load_segment
    split
    · exact hk
    · dsimp only
      rw [cache_keys_append]
      refine List.mem_append_left _ ?_
      split
      · exact mem_clean_cache_of_near hk ((far_from_eq_false_iff h32).mpr hdist)
      · exact hk
  · intro m s
    unfold TableManager.get_or_load_segment
    split
    · next h => exact mem_of_contains h
    · dsimp only
      rw [cache_keys_append]
      exact List.mem_append_right _ (by simp [cache_keys])

/-- A cache with six far entries (so that an eviction pass at index 0 would
actually remove something) and two near entries, used as witness input. -/
def cacheW : List (ℕ × List Row) :=
  [(10, []), (11, []), (12, []), (13, []), (14, []), (15, []), (1, []), (2, [])]

/-- The witness manager holding `cacheW`. -/
def mW : TableManager := { renderer := ⟨cfgC1⟩, data_cache := cacheW, segment_size := 1 }

/-- C3 witness: at the concrete cache `cacheW` and current index 0, the
evicted key 10 is at distance > 2; the near key 1 and the requested key 0
are cached after `get_or_load_segment 0`. -/
theorem eviction_only_removes_far_segments_witness :
    2 < Nat.dist 10 0 ∧
    1 ∈ cache_keys (mW.get_or_load_segment 0).1.data_cache ∧
    0 ∈ cache_keys (mW.get_or_load_segment 0).1.data_cache :=
  ⟨eviction_only_removes_far_segments.1 cacheW 0 10 (by decide) (by decide) (by decide),
   eviction_only_removes_far_segments.2.1 mW 0 1 (by decide) (by decide) (by decide),
   eviction_only_removes_far_segments.2.2 mW 0⟩

/-! ## C4: when the eviction pass runs -/

/-- A manager whose cache holds exactly ten far segments. -/
def mC4 : TableManager :=
  { renderer := ⟨cfgC1⟩,
    data_cache := (List.range' 100 10).map (fun k => (k, ([] : List Row))),
    segment_size := 1 }

/-- C4 counterexample: starting from ten cached segments (all far from index
0), `get_or_load_segment 0` inserts an eleventh segment — the post-insertion
size 11 exceeds 10 — yet no entry is removed, because the source checks
`data_cache.len() > 10` before inserting.  Under the claim, the eviction pass
would have run (and, with ten far entries, removed five of them). -/
theorem eviction_threshold_checked_before_insertion :
    (mC4.get_or_load_segment 0).1.data_cache.length = 11 ∧
    10 < (mC4.get_or_load_segment 0).1.data_cache.length ∧
    (∀ k ∈ cache_keys mC4.data_cache,
      k ∈ cache_keys (mC4.get_or_load_segment 0).1.data_cache) := by decide

/-- C4 amended: on a cache miss the eviction pass runs iff the cache size
measured BEFORE inserting the new segment exceeds 10 (equivalently, the
post-insertion size exceeds 11); when the pre-insertion size is 10 or less,
the new cache is exactly the old cache with the generated segment appended,
so no entry is removed. -/
theorem eviction_runs_iff_pre_insertion_size_exceeds_ten (m : TableManager)
    (i : ℕ) (hmiss : i ∉ cache_keys m.data_cache) :
    (m.data_cache.length ≤ 10 →
      (m.get_or_load_segment i).1.data_cache
        = m.data_cache ++ [(i, generate_segment m.renderer.config m.segment_size i)]) ∧
    (10 < m.data_cache.length →
      (m.get_or_load_segment i).1.data_cache
        = clean_cache m.data_cache i
            ++ [(i, generate_segment m.renderer.config m.segment_size i)]) := by
  constructor
  · intro hlen
    unfold TableManager.get_or_load_segment
    rw [if_neg (by simpa using hmiss)]
    dsimp only
    rw [if_neg (by omega)]
  · intro hlen
    unfold TableManager.get_or_load_segment
    rw [if_neg (by simpa using hmiss)]
    dsimp only
    rw [if_pos hlen]

/-- C4 amended, witness: from an empty cache (size 0 ≤ 10), loading segment 0
appends it and removes nothing. -/
theorem eviction_runs_iff_pre_insertion_size_exceeds_ten_witness :
    ((TableManager.new cfgC1 1).get_or_load_segment 0).1.data_cache
      = (TableManager.new cfgC1 1).data_cache ++ [(0, generate_segment cfgC1 1 0)] :=
  (eviction_runs_iff_pre_insertion_size_exceeds_ten (TableManager.new cfgC1 1) 0
    (by decide)).1 (by decide)

/-! ## C5: the cache never exceeds 11 segments -/

theorem length_filter_partition {α : Type} (p q : α → Bool) (l : List α)
    (hpq : ∀ a, q a = !p a) :
    (l.filter p).length + (l.filter q).length = l.length := by
  induction l with
  | nil => rfl
  | cons a l ih =>
    cases hpa : p a <;> simp [List.filter_cons, hpa, hpq a] <;> omega

theorem filter_contains_length {ks rem : List ℕ} (hks : ks.Nodup) (hrem : rem.Nodup)
    (hsub : rem ⊆ ks) :
    (ks.filter (fun k => rem.contains k)).length = rem.length := by
  have hnd : (ks.filter (fun k => rem.contains k)).Nodup := hks.filter _
  have hset : (ks.filter (fun k => rem.contains k)).toFinset = rem.toFinset := by
    ext x
    simp only [List.mem_toFinset, List.mem_filter]
    constructor
    · rintro ⟨_, hxrem⟩
      exact mem_of_contains hxrem
    · intro hx
      exact ⟨hsub hx, by simpa using hx⟩
  calc (ks.filter (fun k => rem.contains k)).length
      = (ks.filter (fun k => rem.contains k)).toFinset.card :=
        (List.toFinset_card_of_nodup hnd).symm
    _ = rem.toFinset.card := by rw [hset]
    _ = rem.length := List.toFinset_card_of_nodup hrem

/-- Not counting the (uncached) current index, at most 4 distinct keys are
within distance 2 of it: `cur-2`, `cur-1`, `cur+1`, `cur+2`. -/
theorem near_length_le {ks : List ℕ} {cur : ℕ} (hnd : ks.Nodup) (hcur : cur ∉ ks) :
    (ks.filter (fun k => !(far_from cur k))).length ≤ 4 := by
  have hndf : (ks.filter (fun k => !(far_from cur k))).Nodup := hnd.filter _
  have hsub : (ks.filter (fun k => !(far_from cur k))).toFinset
      ⊆ ([cur - 2, cur - 1, cur + 1, cur + 2] : List ℕ).toFinset := by
    intro x hx
    rw [List.mem_toFinset] at hx
    have hxks := List.mem_of_mem_filter hx
    have hxp := List.of_mem_filter hx
    have hxne : x ≠ cur := fun h => hcur (h ▸ hxks)
    have hxfar : far_from cur x = false := by
      revert hxp; cases far_from cur x <;> simp
    unfold far_from at hxfar
    simp only [Bool.or_eq_false_iff, decide_eq_false_iff_not] at hxfar
    rw [List.mem_toFinset]
    simp only [List.mem_cons, List.not_mem_nil, or_false]
    omega
  calc (ks.filter (fun k => !(far_from cur k))).length
      = (ks.filter (fun k => !(far_from cur k))).toFinset.card :=
        (List.toFinset_card_of_nodup hndf).symm
    _ ≤ ([cur - 2, cur - 1, cur + 1, cur + 2] : List ℕ).toFinset.card :=
        Finset.card_le_card hsub
    _ ≤ 4 := by
        have h4 := @List.toFinset_card_le ℕ _ [cur - 2, cur - 1, cur + 1, cur + 2]
        simpa using h4

theorem length_filter_not_contains {cache : List (ℕ × List Row)} {rem : List ℕ}
    (hnd : (cache_keys cache).Nodup) (hremnd : rem.Nodup)
    (hsub : rem ⊆ cache_keys cache) :
    (cache.filter (fun e => !rem.contains e.1)).length = cache.length - rem.length := by
  have h1 : (cache.filter (fun e => !rem.contains e.1)).length
      = ((cache_keys cache).filter (fun k => !rem.contains k)).length := by
    calc (cache.filter (fun e => !rem.contains e.1)).length
        = (cache_keys (cache.filter (fun e => !rem.contains e.1))).length :=
          (List.length_map _ _).symm
      _ = ((cache_keys cache).filter (fun k => !rem.contains k)).length := by
          rw [cache_keys_filter cache (fun k => !rem.contains k)]
  have h2 := length_filter_partition (fun k => rem.contains k)
    (fun k => !rem.contains k) (cache_keys cache) (fun a => rfl)
  have h3 := filter_contains_length hnd hremnd hsub
  have h4 : (cache_keys cache).length = cache.length := List.length_map _ _
  omega

/-- When the eviction pass is triggered with more than 10 distinct cached
keys and an uncached current index, it leaves at most 9 entries: the far set
has at least 7 members, all but 5 of them are removed, and at most 4 near
entries remain. -/
theorem clean_cache_length_le {cache : List (ℕ × List Row)} {cur : ℕ}
    (hnd : (cache_keys cache).Nodup) (hcur : cur ∉ cache_keys cache)
    (hlen : 10 < cache.length) :
    (clean_cache cache cur).length ≤ 9 := by
  have hkeyslen : (cache_keys cache).length = cache.length := List.length_map _ _
  have hpart := length_filter_partition (far_from cur) (fun k => !(far_from cur k))
    (cache_keys cache) (fun a => rfl)
  have hnear := near_length_le hnd hcur
  have hfarlen : 5 < ((cache_keys cache).filter (far_from cur)).length := by omega
  unfold clean_cache
  dsimp only
  rw [if_pos hfarlen]
  rw [length_filter_not_contains hnd
    (List.Nodup.sublist (List.take_sublist _ _) (hnd.filter _))
    (fun x hx => List.mem_of_mem_filter (List.mem_of_mem_take hx))]
  rw [List.length_take]
  omega

theorem cache_keys_clean_subset {cache : List (ℕ × List Row)} {cur k : ℕ}
    (h : k ∈ cache_keys (clean_cache cache cur)) : k ∈ cache_keys cache := by
  unfold clean_cache at h
  dsimp only at h
  split at h
  · obtain ⟨e, he, rfl⟩ := List.mem_map.mp h
    exact List.mem_map.mpr ⟨e, List.mem_of_mem_filter he, rfl⟩
  · exact h

theorem clean_cache_keys_nodup {cache : List (ℕ × List Row)} {cur : ℕ}
    (h : (cache_keys cache).Nodup) : (cache_keys (clean_cache cache cur)).Nodup := by
  unfold clean_cache
  dsimp only
  split
  · exact List.Nodup.sublist ((List.filter_sublist _).map Prod.fst) h
  · exact h

/-- The cache invariant maintained by every entry point: keys are distinct
and there are at most 11 entries. -/
def cache_inv (m : TableManager) : Prop :=
  (cache_keys m.data_cache).Nodup ∧ m.data_cache.length ≤ 11

theorem get_or_load_preserves_inv {m : TableManager} (i : ℕ) (h : cache_inv m) :
    cache_inv (m.get_or_load_segment i).1 := by
  obtain ⟨hnd, hlen⟩ := h
  unfold TableManager.get_or_load_segment
  split
  · exact ⟨hnd, hlen⟩
  · next hc =>
    have hmiss : i ∉ cache_keys m.data_cache := by
      intro hmem
      exact hc (by simpa using hmem)
    dsimp only
    constructor
    · rw [cache_keys_append, List.nodup_append]
      refine ⟨?_, by simp [cache_keys], ?_⟩
      · split
        · exact clean_cache_keys_nodup hnd
        · exact hnd
      · intro a ha hb
        have ha' : a ∈ cache_keys m.data_cache := by
          revert ha; split
          · exact fun ha => cache_keys_clean_subset ha
          · exact fun ha => ha
        have hai : a = i := by simpa [cache_keys] using hb
        exact hmiss (hai ▸ ha')
    · rw [List.length_append]
      split
      · next h10 =>
        have h9 := clean_cache_length_le hnd hmiss h10
        simp only [List.length_cons, List.length_nil]
        omega
      · next h10 =>
        simp only [List.length_cons, List.length_nil]
        omega

theorem content_step_preserves_inv {acc : TableManager × List Row} (r : ℕ)
    (h : cache_inv acc.1) : cache_inv (content_step acc r).1 :=
  get_or_load_preserves_inv _ h

theorem foldl_content_step_inv (l : List ℕ) (acc : TableManager × List Row)
    (h : cache_inv acc.1) : cache_inv ((l.foldl content_step acc).1) := by
  induction l generalizing acc with
  | nil => exact h
  | cons a l ih => exact ih _ (content_step_preserves_inv a h)

theorem applyOp_preserves_inv (m : TableManager) (op : TableOp) (h : cache_inv m) :
    cache_inv (applyOp m op) := by
  cases op with
  | renderContent sl st => exact foldl_content_step_inv _ _ h
  | getOrLoad i => exact get_or_load_preserves_inv i h

theorem runOps_preserves_inv (m : TableManager) (ops : List TableOp)
    (h : cache_inv m) : cache_inv (runOps m ops) := by
  induction ops generalizing m with
  | nil => exact h
  | cons op ops ih => exact ih _ (applyOp_preserves_inv m op h)

/-- C5: starting from a freshly constructed manager (empty cache), after any
sequence of `render_content` / `get_or_load_segment` calls the segment cache
holds at most 11 segments. -/
theorem cache_size_at_most_eleven (cfg : TableConfig) (segment_size : ℕ)
    (ops : List TableOp) :
    (runOps (TableManager.new cfg segment_size) ops).data_cache.length ≤ 11 :=
  (runOps_preserves_inv (TableManager.new cfg segment_size) ops
    ⟨List.nodup_nil, by simp [TableManager.new]⟩).2

/-! ## C6: getOrLoad is idempotent and content-pure -/

/-- Extract the text of a `fillText` command. -/
def fill_text_of : DrawCmd → Option String
  | DrawCmd.fillText t _ _ => some t
  | _ => none

/-- C7 counterexample: with the spec scenario configuration (columns = 5) and
scrollLeft = 0, the labels the header pass draws are "列 1" through "列 5" —
the source formats `"列 {}"`, not `"Col {}"` — so the claimed label "Col 1"
is never drawn. -/
theorem header_labels_are_localized :
    (mMain.render_header 0).2.filterMap fill_text_of
      = ["列 1", "列 2", "列 3", "列 4", "列 5"] ∧
    "Col 1" ∉ (mMain.render_header 0).2.filterMap fill_text_of := by
  have h : header_col_range cfgMain 0 = (0, 4) := by
    norm_num [header_col_range, f64_to_u32, cfgMain] <;> decide
  constructor
  · simp only [TableManager.render_header, mMain, TableManager.new, h]
    decide
  · simp only [TableManager.render_header, mMain, TableManager.new, h]
    decide

/-- C7 amended: for every column in the inclusive range [startCol, endCol]
the header pass draws the centered label "列 {col+1}" (1-based display) at
x = col*cellWidth - scrollLeft + cellWidth/2, vertically centered in the
header band; with columns = 5 and scrollLeft = 0 the labels drawn are
"列 1" through "列 5". -/
theorem header_draws_centered_labels :
    (∀ (r : TableRenderer) (scroll_left : ℚ) (start_col end_col col : ℕ),
        start_col ≤ col → col ≤ end_col →
        DrawCmd.fillText ("列 " ++ toString (col + 1))
            ((col : ℚ) * r.config.cell_width - scroll_left + r.config.cell_width / 2)
            (r.config.header_height / 2)
          ∈ r.render_header start_col end_col scroll_left) ∧
    (mMain.render_header 0).2.filterMap fill_text_of
      = ["列 1", "列 2", "列 3", "列 4", "列 5"] := by
  constructor
  · intro r sl scol ecol col h1 h2
    unfold TableRenderer.render_header
    dsimp only
    refine List.mem_append_left _ ?_
    refine List.mem_append_left _ ?_
    refine List.mem_append_left _ ?_
    refine List.mem_append_right _ ?_
    exact List.mem_map.mpr
      ⟨col, List.mem_range'.mpr ⟨col - scol, by omega, by omega⟩, rfl⟩
  · have h : header_col_range cfgMain 0 = (0, 4) := by
      norm_num [header_col_range, f64_to_u32, cfgMain] <;> decide
    simp only [TableManager.render_header, mMain, TableManager.new, h]
    decide

/-- C7 amended, witness: in the scenario configuration the label "列 3" of
column index 2 is drawn centered at x = 2*80 - 0 + 40. -/
theorem header_draws_centered_labels_witness :
    DrawCmd.fillText ("列 " ++ toString (2 + 1))
        (((2 : ℕ) : ℚ) * cfgMain.cell_width - 0 + cfgMain.cell_width / 2)
        (cfgMain.header_height / 2)
      ∈ TableRenderer.render_header ⟨cfgMain⟩ 0 4 0 :=
  header_draws_centered_labels.1 ⟨cfgMain⟩ 0 0 4 2 (by decide) (by decide)

/-! ## C9: missing cell values render as the empty string -/

theorem mem_rowLoop {dataLen : ℕ} {body : ℕ → List DrawCmd} {start n ri : ℕ}
    {x : DrawCmd} (h1 : start ≤ ri) (h2 : ri < start + n) (h3 : ri < dataLen)
    (hx : x ∈ body ri) : x ∈ rowLoop dataLen body start n := by
  induction n generalizing start with
  | zero => omega
  | succ n ih =>
    simp only [rowLoop]
    rw [if_neg (by omega)]
    rcases Nat.eq_or_lt_of_le h1 with rfl | hlt
    · exact List.mem_append_left _ hx
    · exact List.mem_append_right _ (ih (by omega) (by omega))

theorem mem_text_row_body {cfg : TableConfig} {data : List Row}
    {start_col end_col : ℕ} {scroll_left adjusted_scroll_top : ℚ} {ri col : ℕ}
    (hy : ¬((ri : ℚ) * cfg.cell_height - adjusted_scroll_top + cfg.cell_height < 0 ∨
            (ri : ℚ) * cfg.cell_height - adjusted_scroll_top > cfg.visible_height))
    (hc1 : start_col ≤ col) (hc2 : col ≤ end_col)
    (hx : ¬((col : ℚ) * cfg.cell_width - scroll_left + cfg.cell_width < 0 ∨
            (col : ℚ) * cfg.cell_width - scroll_left > cfg.visible_width)) :
    DrawCmd.fillText
        (((data.getD ri ⟨[]⟩).cells.lookup ("col_" ++ toString col)).getD "")
        ((col : ℚ) * cfg.cell_width - scroll_left + cfg.cell_width / 2)
        ((ri : ℚ) * cfg.cell_height - adjusted_scroll_top + cfg.cell_height / 2)
      ∈ text_row_body cfg data start_col end_col scroll_left adjusted_scroll_top ri := by
  unfold text_row_body
  dsimp only
  rw [if_neg hy]
  refine List.mem_flatMap.mpr
    ⟨col, List.mem_range'.mpr ⟨col - start_col, by omega, by omega⟩, ?_⟩
  rw [if_neg hx]
  simp

/-- C9: in the text pass of `render_content_cells`, for every row inside the
loop window that exists in the supplied data and is vertically visible, and
every column in [startCol, endCol] that is horizontally visible: if the row
has no value under the key "col_{col}" the renderer draws the empty string
for that cell, and if a value is present that string is drawn centered in
the cell. -/
theorem missing_cell_renders_empty (r : TableRenderer) (data : List Row)
    (data_start_row data_end_row start_col end_col : ℕ)
    (scroll_left adjusted_scroll_top : ℚ) (ri col : ℕ)
    (hr1 : data_start_row ≤ ri) (hr2 : ri ≤ data_end_row) (hr3 : ri < data.length)
    (hy : ¬((ri : ℚ) * r.config.cell_height - adjusted_scroll_top
              + r.config.cell_height < 0 ∨
            (ri : ℚ) * r.config.cell_height - adjusted_scroll_top
              > r.config.visible_height))
    (hc1 : start_col ≤ col) (hc2 : col ≤ end_col)
    (hx : ¬((col : ℚ) * r.config.cell_width - scroll_left + r.config.cell_width < 0 ∨
            (col : ℚ) * r.config.cell_width - scroll_left > r.config.visible_width)) :
    ((data.getD ri ⟨[]⟩).cells.lookup ("col_" ++ toString col) = none →
      DrawCmd.fillText ""
          ((col : ℚ) * r.config.cell_width - scroll_left + r.config.cell_width / 2)
          ((ri : ℚ) * r.config.cell_height - adjusted_scroll_top
            + r.config.cell_height / 2)
        ∈ r.render_content_cells data data_start_row data_end_row start_col end_col
            scroll_left adjusted_scroll_top) ∧
    (∀ v : String, (data.getD ri ⟨[]⟩).cells.lookup ("col_" ++ toString col) = some v →
      DrawCmd.fillText v
          ((col : ℚ) * r.config.cell_width - scroll_left + r.config.cell_width / 2)
          ((ri : ℚ) * r.config.cell_height - adjusted_scroll_top
            + r.config.cell_height / 2)
        ∈ r.render_content_cells data data_start_row data_end_row start_col end_col
            scroll_left adjusted_scroll_top) := by
  have hmem : DrawCmd.fillText
      (((data.getD ri ⟨[]⟩).cells.lookup ("col_" ++ toString col)).getD "")
      ((col : ℚ) * r.config.cell_width - scroll_left + r.config.cell_width / 2)
      ((ri : ℚ) * r.config.cell_height - adjusted_scroll_top + r.config.cell_height / 2)
      ∈ r.render_content_cells data data_start_row data_end_row start_col end_col
          scroll_left adjusted_scroll_top := by
    unfold TableRenderer.render_content_cells
    dsimp only
    refine List.mem_append_left _ ?_
    refine List.mem_append_left _ ?_
    refine List.mem_append_right _ ?_
    exact mem_rowLoop hr1 (by omega) hr3 (mem_text_row_body hy hc1 hc2 hx)
  constructor
  · intro hnone
    rw [hnone] at hmem
    exact hmem
  · intro v hsome
    rw [hsome] at hmem
    exact hmem

/-- The single-row data used by the C9 witness: only "col_0" is present. -/
def data9 : List Row := [⟨[("col_0", "a")]⟩]

/-- C9 witness: with the scenario configuration, row 0 of `data9` and column
1 — whose key "col_1" is absent — the renderer draws the empty string at the
center of that cell. -/
theorem missing_cell_renders_empty_witness :
    DrawCmd.fillText ""
        (((1 : ℕ) : ℚ) * cfgMain.cell_width - 0 + cfgMain.cell_width / 2)
        (((0 : ℕ) : ℚ) * cfgMain.cell_height - 0 + cfgMain.cell_height / 2)
      ∈ TableRenderer.render_content_cells ⟨cfgMain⟩ data9 0 0 0 1 0 0 :=
  (missing_cell_renders_empty ⟨cfgMain⟩ data9 0 0 0 1 0 0 0 1
    (by decide) (by decide) (by decide) (by norm_num [cfgMain])
    (by decide) (by decide) (by norm_num [cfgMain])).1 rfl
